import Mathlib

/-!
Verification development for the cirrus-ci-agent executor engine.

The definitions below are a shallow embedding of the Go sources:
  * `src/internal/executor/vaultunboxer/vaultunboxer.go` (the `executor`
    package: `RunBuild`, `performStep`, `BoundedCommands`,
    `getScriptEnvironment`, `retryableCloneError`, `CloneRepository`), and
  * `src/unnamed/part_000` (the `main` package: `transportSettings`).

Go strings are modelled as `List Char`; Go maps used by the executor are
modelled as association lists; the effectful parts of `RunBuild` are
modelled as a function producing an explicit event trace.
-/

/-! ### Go string helpers (strings.HasPrefix / Contains / TrimPrefix) -/

/-- Model of Go `strings.HasPrefix pre s` (argument order: pattern first). -/
def beginsWith : List Char → List Char → Bool
  | [], _ => true
  | _ :: _, [] => false
  | p :: ps, c :: cs => p == c && beginsWith ps cs

/-- Model of Go `strings.Contains s sub`. -/
def goContains : List Char → List Char → Bool
  | [], sub => beginsWith sub []
  | s@(_ :: rest), sub => beginsWith sub s || goContains rest sub

/-- Model of Go `strings.TrimPrefix s pre`. -/
def goTrimPre (s pre : List Char) : List Char :=
  if beginsWith pre s then s.drop pre.length else s

/-- The literal `"https://"`. -/
def httpsSchemeL : List Char := ['h', 't', 't', 'p', 's', ':', '/', '/']

/-- The literal `"http://"`. -/
def httpSchemeL : List Char := ['h', 't', 't', 'p', ':', '/', '/']

/-- The literal `"unix://"`. -/
def unixSchemeL : List Char := ['u', 'n', 'i', 'x', ':', '/', '/']

/-- The literal `"://"`. -/
def sepL : List Char := [':', '/', '/']

/-! ### transportSettings (src/unnamed/part_000, lines 204-215)

Returns the dial target and the `insecure` flag: `insecure` starts `true`,
is set to `false` when the endpoint contains `"https://"` or contains no
`"://"` at all, and the target strips a leading `"http://"` then a leading
`"https://"`. -/

def transportSettings (apiEndpoint : List Char) : List Char × Bool :=
  let insecure :=
    if goContains apiEndpoint httpsSchemeL || !goContains apiEndpoint sepL then false else true
  let target := goTrimPre (goTrimPre apiEndpoint httpSchemeL) httpsSchemeL
  (target, insecure)

/-! ### retryableCloneError (vaultunboxer.go lines 856-877) and the
single clone retry (lines 768-775) -/

/-- The literal `"timeout"`. -/
def timeoutL : List Char := ['t', 'i', 'm', 'e', 'o', 'u', 't']

/-- The literal `"tls"`. -/
def tlsL : List Char := ['t', 'l', 's']

/-- The literal `"connection"`. -/
def connectionL : List Char := ['c', 'o', 'n', 'n', 'e', 'c', 't', 'i', 'o', 'n']

/-- The literal `"authentication"`. -/
def authenticationL : List Char := ['a', 'u', 't', 'h', 'e', 'n', 't', 'i', 'c', 'a', 't', 'i', 'o', 'n']

/-- The literal `"not found"`. -/
def notFoundL : List Char := ['n', 'o', 't', ' ', 'f', 'o', 'u', 'n', 'd']

/-- Model of `retryableCloneError`: a Go `error` is `Option (List Char)`
(`none` is `nil`); the function lower-cases the message and checks the
five substrings in sequence. -/
def retryableCloneError (err : Option (List Char)) : Bool :=
  match err with
  | none => false
  | some msg =>
    let errorMessage := msg.map Char.toLower
    if goContains errorMessage timeoutL then true
    else if goContains errorMessage tlsL then true
    else if goContains errorMessage connectionL then true
    else if goContains errorMessage authenticationL then true
    else if goContains errorMessage notFoundL then true
    else false

/-- Model of the clone retry in `CloneRepository` (lines 768-775): perform
the first attempt; when it fails with a retryable error, perform exactly one
more attempt. `attempt n` is the error outcome of the `n`-th attempt
(`none` meaning success); the result is the number of attempts performed
and the final error. -/
def cloneWithRetry (attempt : Nat → Option (List Char)) : Nat × Option (List Char) :=
  let err := attempt 0
  if err.isSome && retryableCloneError err then (2, attempt 1) else (1, err)

/-! ### Data model for the executor (vaultunboxer.go, `executor` package) -/

/-- Execution behaviour of a command (`api.Command_ON_SUCCESS` etc.). -/
inductive Behaviour where
  | onSuccess
  | onFailure
  | always
deriving DecidableEq, Repr

/-- Instruction variant of a command, collapsed to the shape the control
loop distinguishes: `exitInstruction` is the only variant for which
`performStep` returns a non-nil error (`ErrStepExit`); a successfully
launched `backgroundScript` is the only way an entry is appended to the
background registry; every other variant behaves like `script` from the
loop's point of view (it yields a `StepResult` and touches no registry). -/
inductive Instr where
  | exitInstruction
  | backgroundScript
  | script
  | waitForTerminal
deriving DecidableEq, Repr

/-- A command: name, execution behaviour and instruction variant. -/
structure Command where
  name : String
  executionBehaviour : Behaviour
  instr : Instr
deriving DecidableEq, Repr

/-- CommandResult statuses used by the loop. -/
inductive Status where
  | executing
  | completed
  | failed
  | skipped
deriving DecidableEq, Repr

/-- Observable actions of `RunBuild`, in program order. Registry entries
are identified by their append index. -/
inductive Event where
  | tokenMismatchPanic
  | unboxFailure
  | registerSecrets
  | startTerminal
  | queue (name : String) (status : Status)
  | flush
  | stepStart (name : String)
  | slicePanic
  | kill (i : Nat)
  | finalize (i : Nat)
  | reportFinished
deriving DecidableEq, Repr

/-! ### BoundedCommands (vaultunboxer.go lines 410-425) -/

/-- The index-scanning loop of `BoundedCommands`: for every position `i`,
`left` is overwritten whenever the name equals `fromName` (non-empty) and
`right` whenever the name equals `toName` (non-empty). -/
def boundsLoop (fromName toName : String) : List Command → Nat → Nat → Nat → Nat × Nat
  | [], _, left, right => (left, right)
  | c :: rest, i, left, right =>
    boundsLoop fromName toName rest (i + 1)
      (if fromName ≠ "" ∧ c.name = fromName then i else left)
      (if toName ≠ "" ∧ c.name = toName then i else right)

/-- Model of `BoundedCommands`. The Go expression `commands[left:right]`
panics when `left > right`; that case is modelled as `none`. -/
def BoundedCommands (commands : List Command) (fromName toName : String) :
    Option (List Command) :=
  let lr := boundsLoop fromName toName commands 0 0 commands.length
  if lr.1 ≤ lr.2 then some ((commands.drop lr.1).take (lr.2 - lr.1)) else none

/-! ### The control loop of RunBuild (vaultunboxer.go lines 301-348)

`oracle n` gives the success of the `n`-th invocation of `performStep`
that yields a `StepResult` (for a background script: whether the launch
succeeded, which is also exactly when the command is appended to the
registry). An `exitInstruction` makes `performStep` return `ErrStepExit`,
upon which `RunBuild` returns immediately. -/

/-- Result of running the command loop. -/
structure LoopOut where
  events : List Event
  registry : List String
  exited : Bool
  failed : Bool
  nextIdx : Nat
deriving Repr

/-- The `shouldRun` predicate exactly as written in the loop body. -/
def shouldRunB (b : Behaviour) (failedAtLeastOnce : Bool) : Bool :=
  (b == Behaviour.onSuccess && !failedAtLeastOnce) ||
  (b == Behaviour.onFailure && failedAtLeastOnce) ||
  (b == Behaviour.always)

/-- The per-command loop of `RunBuild`: skipped commands queue a `SKIPPED`
result; executed commands queue `EXECUTING`, force-flush, invoke
`performStep`, and queue `COMPLETED`/`FAILED`; `ErrStepExit` returns
immediately. -/
def runLoop (oracle : Nat → Bool) : List Command → Bool → Nat → List String → LoopOut
  | [], failed, idx, reg => ⟨[], reg, false, failed, idx⟩
  | c :: rest, failed, idx, reg =>
    if shouldRunB c.executionBehaviour failed then
      let pre : List Event := [.queue c.name .executing, .flush, .stepStart c.name]
      match c.instr with
      | .exitInstruction => ⟨pre, reg, true, failed, idx⟩
      | .backgroundScript =>
        let success := oracle idx
        let reg' := if success then reg ++ [c.name] else reg
        let st : Status := if success then .completed else .failed
        let out := runLoop oracle rest (failed || !success) (idx + 1) reg'
        ⟨pre ++ .queue c.name st :: out.events, out.registry, out.exited, out.failed, out.nextIdx⟩
      | _ =>
        let success := oracle idx
        let st : Status := if success then .completed else .failed
        let out := runLoop oracle rest (failed || !success) (idx + 1) reg
        ⟨pre ++ .queue c.name st :: out.events, out.registry, out.exited, out.failed, out.nextIdx⟩
    else
      let out := runLoop oracle rest failed idx reg
      ⟨.queue c.name .skipped :: out.events, out.registry, out.exited, out.failed, out.nextIdx⟩

/-- The background-registry drain (vaultunboxer.go lines 352-361): for each
registry entry in order, deliver `Kill` to its process and finalise its log
sink. The registry list is not modified by the drain. -/
def drainEvents : List String → Nat → List Event
  | [], _ => []
  | _ :: rest, i => Event.kill i :: Event.finalize i :: drainEvents rest (i + 1)

/-- Result of `RunBuild`: the event trace, the final background registry
(names in append order) and whether the loop was left through
`ErrStepExit`. -/
structure BuildOut where
  events : List Event
  registry : List String
  exitedEarly : Bool
deriving Repr

/-- Model of `Executor.RunBuild` (vaultunboxer.go lines 159-408) after a
successful `InitialCommands` call. `serverToken` is the launch token,
`respServerToken` the token carried by the response; `unboxOk` abstracts
the Vault-unboxing prelude (`false` means some boxed value failed, which
reports an error and returns before secrets are registered). The token
check precedes everything; `SecretsToMask` registration precedes the
empty-command check; the terminal pre-scan only runs for a non-empty
command list; the loop runs over `BoundedCommands`; on `ErrStepExit` the
function returns with no flush, no drain and no finish report. The
`registerSecrets` prelude, followed by the terminal pre-scan for a
non-empty command list, is factored out as `preludeEvents`. -/
def preludeEvents (commands : List Command) : List Event :=
  Event.registerSecrets ::
    (if commands.any (fun c => c.instr == .waitForTerminal) then [.startTerminal] else [])

def runBuild (serverToken respServerToken : String) (unboxOk : Bool)
    (commands : List Command) (failedAtLeastOnce : Bool)
    (commandFrom commandTo : String) (oracle : Nat → Bool) : BuildOut :=
  if respServerToken ≠ serverToken then ⟨[.tokenMismatchPanic], [], false⟩
  else if !unboxOk then ⟨[.unboxFailure], [], false⟩
  else if commands.isEmpty then ⟨[.registerSecrets], [], false⟩
  else
    match BoundedCommands commands commandFrom commandTo with
    | none => ⟨preludeEvents commands ++ [.slicePanic], [], false⟩
    | some bc =>
      let lr := runLoop oracle bc failedAtLeastOnce 0 []
      if lr.exited then ⟨preludeEvents commands ++ lr.events, lr.registry, true⟩
      else
        ⟨preludeEvents commands ++ lr.events ++
           .flush :: drainEvents lr.registry 0 ++ [.reportFinished],
         lr.registry, false⟩

/-! ### Spec-side definitions for the skip/run policy (claim C2)

These follow the words of the specification (section 4.1 step 10 and the
execution-behaviour table), to be compared with `runLoop`. -/

/-- Spec-side `shouldRun` table: ON_SUCCESS iff not failed, ON_FAILURE iff
failed, ALWAYS unconditionally. -/
def specShouldRun (b : Behaviour) (failed : Bool) : Bool :=
  match b with
  | .onSuccess => !failed
  | .onFailure => failed
  | .always => true

/-- Spec-side expected result sequence: per command in order, a skipped
command yields `SKIPPED`; an executed one yields `EXECUTING` then
`COMPLETED`/`FAILED`, with `failedAtLeastOnce` set after a failed step. -/
def specResults (oracle : Nat → Bool) : List Command → Bool → Nat → List (String × Status)
  | [], _, _ => []
  | c :: rest, failed, idx =>
    if specShouldRun c.executionBehaviour failed then
      let success := oracle idx
      (c.name, .executing) :: (c.name, if success then .completed else .failed) ::
        specResults oracle rest (failed || !success) (idx + 1)
    else
      (c.name, .skipped) :: specResults oracle rest failed idx

/-- Spec-side executed-command set: exactly the commands whose `shouldRun`
is true at their point in the trace, in order. -/
def specExecuted (oracle : Nat → Bool) : List Command → Bool → Nat → List String
  | [], _, _ => []
  | c :: rest, failed, idx =>
    if specShouldRun c.executionBehaviour failed then
      let success := oracle idx
      c.name :: specExecuted oracle rest (failed || !success) (idx + 1)
    else
      specExecuted oracle rest failed idx

/-- The queued `CommandResult`s of a trace, in order. -/
def queuedResults (evs : List Event) : List (String × Status) :=
  evs.filterMap fun e =>
    match e with
    | .queue n s => some (n, s)
    | _ => none

/-- The `performStep` invocations of a trace, in order. -/
def stepStarts (evs : List Event) : List String :=
  evs.filterMap fun e =>
    match e with
    | .stepStart n => some n
    | _ => none

/-! ### Environment (internal/environment, not under src/)

Modelled from the spec: the `environment` package is not among the given
sources; spec section 3 describes it as an insertion-agnostic mapping
string to string plus a set of sensitive values, with operations `lookup`,
`set`, `merge(map, markSensitive)` where `merge` inserts every pair and,
when `markSensitive` holds, registers every inserted value as sensitive. -/

/-- Insert or overwrite a key in an association list. -/
def setVar : List (String × String) → String → String → List (String × String)
  | [], k, v => [(k, v)]
  | (k', v') :: rest, k, v =>
    if k' == k then (k, v) :: rest else (k', v') :: setVar rest k v

/-- Lookup in an association list (first binding wins; `setVar` keeps keys
unique so this is the binding). -/
def lookupVar (vars : List (String × String)) (k : String) : Option String :=
  (vars.find? fun p => p.1 == k).map (·.2)

/-- Modelled from the spec: environment state, a mapping plus the set of
sensitive values. -/
structure Environment where
  vars : List (String × String)
  sensitive : List String
deriving DecidableEq, Repr

/-- Modelled from the spec: `Environment.Lookup`. -/
def Environment.lookup (env : Environment) (k : String) : Option String :=
  lookupVar env.vars k

/-- Modelled from the spec: `Environment.Merge(map, markSensitive)`. -/
def Environment.merge (env : Environment) (m : List (String × String))
    (markSensitive : Bool) : Environment :=
  { vars := m.foldl (fun vs p => setVar vs p.1 p.2) env.vars
    sensitive := if markSensitive then env.sensitive ++ m.map (·.2) else env.sensitive }

/-- The `performStep` epilogue (vaultunboxer.go lines 571-573): look up
`CIRRUS_ENV_SENSITIVE` in the current environment, then merge the
variables parsed from the step's `CIRRUS_ENV` file with that sensitivity.
The lookup happens before the merge. -/
def performStepEpilogue (env : Environment) (cirrusEnvVariables : List (String × String)) :
    Environment :=
  let isSensitive := (env.lookup "CIRRUS_ENV_SENSITIVE").isSome
  env.merge cirrusEnvVariables isSensitive

/-! ### getScriptEnvironment (vaultunboxer.go lines 427-461) -/

/-- Host-dependent inputs of `getScriptEnvironment`: the ambient `OS`
variable, `runtime.GOOS`/`GOARCH`, `os.TempDir()`, whether
`<tmp>/cirrus-ci-build` already exists, the directory created by
`os.MkdirTemp dir pattern`, and `filepath.ToSlash`. -/
structure HostState where
  hostHasOSVar : Bool
  goos : String
  goarch : String
  tempDir : String
  defaultTempDirExists : Bool
  mkdirTempResult : String → String → String
  toSlash : String → String

/-- The executor fields `getScriptEnvironment` reads. -/
structure ExecutorConfig where
  taskId : Int
  preCreatedWorkingDir : String
  commandFrom : String

/-- Simplified `filepath.Join` for the two-component paths used here. -/
def joinPath (a b : String) : String := a ++ "/" ++ b

/-- First stage of `getScriptEnvironment` (vaultunboxer.go lines 428-438):
default `OS` when neither the server response nor the host environment
carries it, then set `CIRRUS_OS` and `CIRRUS_ARCH`. -/
def gseBase (host : HostState) (responseEnvironment : List (String × String)) :
    List (String × String) :=
  let re := responseEnvironment
  let re :=
    if (lookupVar re "OS").isNone && !host.hostHasOSVar then setVar re "OS" host.goos else re
  let re := setVar re "CIRRUS_OS" host.goos
  setVar re "CIRRUS_ARCH" host.goarch

/-- Model of `getScriptEnvironment`: fill in `OS` (when neither the server
nor the host provides it), `CIRRUS_OS`, `CIRRUS_ARCH` (the `gseBase`
stage), and resolve `CIRRUS_WORKING_DIR` in priority order: server value,
then the pre-created working dir, then `<tmp>/cirrus-ci-build` when absent
or when resuming (`commandFrom` non-empty), else a fresh
`cirrus-task-<taskId>` temp dir; only the two temp-dir branches pass
through `ToSlash`. -/
def getScriptEnvironment (cfg : ExecutorConfig) (host : HostState)
    (responseEnvironment : List (String × String)) : List (String × String) :=
  let re := gseBase host responseEnvironment
  let hasWorkingDir := (lookupVar re "CIRRUS_WORKING_DIR").isSome
  let re :=
    if !hasWorkingDir && cfg.preCreatedWorkingDir ≠ "" then
      setVar re "CIRRUS_WORKING_DIR" cfg.preCreatedWorkingDir
    else re
  if (lookupVar re "CIRRUS_WORKING_DIR").isNone then
    let defaultTempDirPath := joinPath host.tempDir "cirrus-ci-build"
    if !host.defaultTempDirExists then
      setVar re "CIRRUS_WORKING_DIR" (host.toSlash defaultTempDirPath)
    else if cfg.commandFrom ≠ "" then
      setVar re "CIRRUS_WORKING_DIR" (host.toSlash defaultTempDirPath)
    else
      setVar re "CIRRUS_WORKING_DIR"
        (host.toSlash (host.mkdirTempResult host.tempDir ("cirrus-task-" ++ toString cfg.taskId)))
  else re

/-! ### Lemmas about the Go string helpers -/

/-- Occurrence characterisation of `goContains`. -/
theorem goContains_iff (s sub : List Char) :
    goContains s sub = true ↔ ∃ n, beginsWith sub (List.drop n s) = true := by
  induction s with
  | nil =>
    constructor
    · intro h
      exact ⟨0, h⟩
    · rintro ⟨n, hn⟩
      simpa [goContains] using (by simpa using hn)
  | cons c cs ih =>
    simp only [goContains, Bool.or_eq_true]
    constructor
    · rintro (h | h)
      · exact ⟨0, h⟩
      · obtain ⟨n, hn⟩ := ih.mp h
        exact ⟨n + 1, by simpa using hn⟩
    · rintro ⟨n, hn⟩
      cases n with
      | zero => exact Or.inl (by simpa using hn)
      | succ m => exact Or.inr (ih.mpr ⟨m, by simpa using hn⟩)

/-- Dropping the same amount from a matching pattern and its text keeps
them matching. -/
theorem beginsWith_drop {p l : List Char} (k : Nat) (h : beginsWith p l = true) :
    beginsWith (p.drop k) (l.drop k) = true := by
  induction k generalizing p l with
  | zero => simpa using h
  | succ m ih =>
    cases p with
    | nil => simp [beginsWith]
    | cons x xs =>
      cases l with
      | nil => simp [beginsWith] at h
      | cons y ys =>
        rw [beginsWith, Bool.and_eq_true] at h
        simpa using ih h.2

/-- A text containing a pattern contains every tail of that pattern. -/
theorem goContains_drop_pattern {s p : List Char} (k : Nat) (h : goContains s p = true) :
    goContains s (p.drop k) = true := by
  obtain ⟨n, hn⟩ := (goContains_iff s p).mp h
  refine (goContains_iff s (p.drop k)).mpr ⟨n + k, ?_⟩
  have hk := beginsWith_drop k hn
  simpa [List.drop_drop, Nat.add_comm] using hk

/-- A text free of `"://"` is free of `"https://"`. -/
theorem not_contains_https_of_not_sep {h : List Char} (hs : goContains h sepL = false) :
    goContains h httpsSchemeL = false := by
  cases hc : goContains h httpsSchemeL with
  | false => rfl
  | true =>
    have hd := goContains_drop_pattern 5 hc
    rw [show httpsSchemeL.drop 5 = sepL from rfl] at hd
    rw [hs] at hd
    exact absurd hd (by decide)

/-- A text free of `"://"` starts with neither `"http://"` nor
`"https://"`. -/
theorem not_beginsWith_scheme {e : List Char} (hs : goContains e sepL = false) :
    beginsWith httpSchemeL e = false ∧ beginsWith httpsSchemeL e = false := by
  constructor
  · cases hb : beginsWith httpSchemeL e with
    | false => rfl
    | true =>
      have h4 := beginsWith_drop 4 hb
      rw [show httpSchemeL.drop 4 = sepL from rfl] at h4
      have : goContains e sepL = true := (goContains_iff e sepL).mpr ⟨4, h4⟩
      rw [hs] at this
      exact absurd this (by decide)
  · cases hb : beginsWith httpsSchemeL e with
    | false => rfl
    | true =>
      have h5 := beginsWith_drop 5 hb
      rw [show httpsSchemeL.drop 5 = sepL from rfl] at h5
      have : goContains e sepL = true := (goContains_iff e sepL).mpr ⟨5, h5⟩
      rw [hs] at this
      exact absurd this (by decide)

example : transportSettings "https://grpc.cirrus-ci.com:443".toList =
    ("grpc.cirrus-ci.com:443".toList, false) := by decide
example : transportSettings "unix:///tmp/agent.sock".toList =
    ("unix:///tmp/agent.sock".toList, true) := by decide
example : transportSettings "localhost:8080".toList = ("localhost:8080".toList, false) := by decide
example : transportSettings "http://localhost:8080".toList = ("localhost:8080".toList, true) := by decide
example : retryableCloneError (some "TLS handshake broke".toList) = true := by decide
example : retryableCloneError (some "weird failure".toList) = false := by decide
example : retryableCloneError none = false := by decide

/-- C7: for every endpoint, `transportSettings` selects secure mode with the
scheme stripped for `https://host`, insecure with the scheme stripped for
`http://host`, insecure with the endpoint unchanged for `unix://path`, and
secure with the endpoint verbatim when it contains no `"://"` (the second
component of the result is the `insecure` flag). -/
theorem transportSettings_mode_selection (h : List Char) (hs : goContains h sepL = false) :
    transportSettings (httpsSchemeL ++ h) = (h, false) ∧
    transportSettings (httpSchemeL ++ h) = (h, true) ∧
    transportSettings (unixSchemeL ++ h) = (unixSchemeL ++ h, true) ∧
    transportSettings h = (h, false) := by
  have hhttps : goContains h httpsSchemeL = false := not_contains_https_of_not_sep hs
  obtain ⟨hb1, hb2⟩ := not_beginsWith_scheme hs
  refine ⟨rfl, ?_, ?_, ?_⟩
  · have e1 : goContains (httpSchemeL ++ h) httpsSchemeL = false := by
      have h0 : goContains (httpSchemeL ++ h) httpsSchemeL = goContains h httpsSchemeL := rfl
      rw [h0, hhttps]
    have e2 : goContains (httpSchemeL ++ h) sepL = true := rfl
    have e3 : beginsWith httpSchemeL (httpSchemeL ++ h) = true := rfl
    have e4 : List.drop httpSchemeL.length (httpSchemeL ++ h) = h := rfl
    simp [transportSettings, goTrimPre, e1, e2, e3, e4, hb2]
  · have e1 : goContains (unixSchemeL ++ h) httpsSchemeL = false := by
      have h0 : goContains (unixSchemeL ++ h) httpsSchemeL = goContains h httpsSchemeL := rfl
      rw [h0, hhttps]
    have e2 : goContains (unixSchemeL ++ h) sepL = true := rfl
    have e3 : beginsWith httpSchemeL (unixSchemeL ++ h) = false := rfl
    have e4 : beginsWith httpsSchemeL (unixSchemeL ++ h) = false := rfl
    simp [transportSettings, goTrimPre, e1, e2, e3, e4]
  · simp [transportSettings, goTrimPre, hhttps, hs, hb1, hb2]

/-- Witness for C7 at the default production endpoint. -/
theorem transportSettings_mode_selection_witness :
    goContains "grpc.cirrus-ci.com:443".toList sepL = false ∧
    transportSettings (httpsSchemeL ++ "grpc.cirrus-ci.com:443".toList) =
      ("grpc.cirrus-ci.com:443".toList, false) :=
  ⟨by decide, (transportSettings_mode_selection "grpc.cirrus-ci.com:443".toList (by decide)).1⟩

/-- C9: the retryable-clone-error classifier returns false on a nil error
and, on a non-nil error, returns true exactly when the lower-cased message
contains one of the five substrings; a retryable first failure triggers
exactly one additional clone attempt (never more than two attempts in
total). -/
theorem retryableCloneError_classifier :
    retryableCloneError none = false ∧
    (∀ msg : List Char,
      retryableCloneError (some msg) =
        (goContains (msg.map Char.toLower) timeoutL ||
         goContains (msg.map Char.toLower) tlsL ||
         goContains (msg.map Char.toLower) connectionL ||
         goContains (msg.map Char.toLower) authenticationL ||
         goContains (msg.map Char.toLower) notFoundL)) ∧
    (∀ attempt : Nat → Option (List Char),
      ((cloneWithRetry attempt).1 = 1 ∨ (cloneWithRetry attempt).1 = 2) ∧
      ((cloneWithRetry attempt).1 = 2 ↔
        (attempt 0).isSome = true ∧ retryableCloneError (attempt 0) = true)) := by
  refine ⟨rfl, ?_, ?_⟩
  · intro msg
    have key : ∀ a b c d e : Bool,
        (if a then true
         else if b then true
         else if c then true
         else if d then true
         else if e then true
         else false) = (a || b || c || d || e) := by decide
    simpa only [retryableCloneError] using key _ _ _ _ _
  · intro attempt
    cases hca : (attempt 0).isSome && retryableCloneError (attempt 0) with
    | true =>
      rw [Bool.and_eq_true] at hca
      have h2 : (cloneWithRetry attempt).1 = 2 := by
        simp [cloneWithRetry, hca.1, hca.2]
      exact ⟨Or.inr h2, by rw [h2]; exact ⟨fun _ => hca, fun _ => rfl⟩⟩
    | false =>
      have h1 : (cloneWithRetry attempt).1 = 1 := by
        simp only [cloneWithRetry]
        rw [hca]
        rfl
      refine ⟨Or.inl h1, ?_⟩
      rw [h1]
      constructor
      · intro h
        exact absurd h (by decide)
      · rintro ⟨ha, hb⟩
        rw [ha, hb] at hca
        exact absurd hca (by decide)

/-- Witness for C9: a TLS failure is retried exactly once. -/
theorem retryableCloneError_classifier_witness :
    retryableCloneError none = false ∧
    (cloneWithRetry fun _ => some ['t', 'l', 's']).1 = 2 :=
  ⟨retryableCloneError_classifier.1,
   (retryableCloneError_classifier.2.2 fun _ => some ['t', 'l', 's']).2.mpr (by decide)⟩

/-! ### Association-list lemmas for the environment claims -/

/-- Looking up the key just set returns the new value. -/
theorem lookupVar_setVar_self (vs : List (String × String)) (k v : String) :
    lookupVar (setVar vs k v) k = some v := by
  induction vs with
  | nil => simp [setVar, lookupVar]
  | cons p rest ih =>
    by_cases h : p.1 = k
    · simp [setVar, h, lookupVar]
    · simpa [setVar, h, lookupVar] using ih

/-- Setting another key does not change a lookup. -/
theorem lookupVar_setVar_ne (vs : List (String × String)) {k k' : String} (v : String)
    (h : k' ≠ k) : lookupVar (setVar vs k' v) k = lookupVar vs k := by
  induction vs with
  | nil => simp [setVar, lookupVar, h]
  | cons p rest ih =>
    by_cases hp : p.1 = k'
    · simp [setVar, hp, lookupVar, h, Ne.symm h]
    · have hsv : setVar (p :: rest) k' v = p :: setVar rest k' v := by
        simp [setVar, hp]
      by_cases hpk : p.1 = k
      · rw [hsv]
        simp [lookupVar, hpk]
      · rw [hsv]
        simpa [lookupVar, hpk] using ih

/-- A defined key stays defined under a fold of inserts. -/
theorem lookupVar_foldl_isSome {vs : List (String × String)} {k : String}
    (m : List (String × String)) (h : (lookupVar vs k).isSome = true) :
    (lookupVar (m.foldl (fun a p => setVar a p.1 p.2) vs) k).isSome = true := by
  induction m generalizing vs with
  | nil => simpa using h
  | cons q rest ih =>
    simp only [List.foldl_cons]
    apply ih
    by_cases hq : q.1 = k
    · rw [hq, lookupVar_setVar_self]
      rfl
    · rw [lookupVar_setVar_ne _ _ hq]
      exact h

/-- A key bound somewhere in the inserted map is defined after the fold. -/
theorem lookupVar_foldl_mem {m : List (String × String)} {k v : String}
    (hm : (k, v) ∈ m) (vs : List (String × String)) :
    (lookupVar (m.foldl (fun a p => setVar a p.1 p.2) vs) k).isSome = true := by
  induction m generalizing vs with
  | nil => cases hm
  | cons q rest ih =>
    simp only [List.foldl_cons]
    rcases List.mem_cons.mp hm with hq | hq
    · apply lookupVar_foldl_isSome
      rw [← hq, lookupVar_setVar_self]
      rfl
    · exact ih hq _

/-- C5 counterexample: a step that defines `CIRRUS_ENV_SENSITIVE` only
inside its own `CIRRUS_ENV` file does not get the variables of that same
file marked sensitive — the flag is looked up before the merge, so the
sensitive set stays empty even though `FOO` was merged from the file. -/
theorem performStepEpilogue_self_flag_counterexample :
    (performStepEpilogue ⟨[("A", "1")], []⟩
        [("CIRRUS_ENV_SENSITIVE", "true"), ("FOO", "sekret")]).lookup "FOO" = some "sekret" ∧
    (performStepEpilogue ⟨[("A", "1")], []⟩
        [("CIRRUS_ENV_SENSITIVE", "true"), ("FOO", "sekret")]).sensitive = [] :=
  ⟨by decide, by decide⟩

/-- C5 amended: the epilogue merge marks the `CIRRUS_ENV` variables
sensitive iff `CIRRUS_ENV_SENSITIVE` was defined in the environment before
the merge; a step defining the flag only inside its own `CIRRUS_ENV` file
has its own variables merged as non-sensitive, and the flag takes effect
from the next step's epilogue onwards. -/
theorem performStepEpilogue_sensitivity (env : Environment)
    (fileVars fileVars2 : List (String × String)) :
    (env.lookup "CIRRUS_ENV_SENSITIVE" = none →
      (performStepEpilogue env fileVars).sensitive = env.sensitive) ∧
    ((env.lookup "CIRRUS_ENV_SENSITIVE").isSome = true →
      (performStepEpilogue env fileVars).sensitive =
        env.sensitive ++ fileVars.map (·.2)) ∧
    (∀ v, ("CIRRUS_ENV_SENSITIVE", v) ∈ fileVars →
      (performStepEpilogue (performStepEpilogue env fileVars) fileVars2).sensitive =
        (performStepEpilogue env fileVars).sensitive ++ fileVars2.map (·.2)) := by
  refine ⟨?_, ?_, ?_⟩
  · intro h
    simp [performStepEpilogue, Environment.merge, h]
  · intro h
    simp [performStepEpilogue, Environment.merge, h]
  · intro v hv
    have hflag : ((performStepEpilogue env fileVars).lookup "CIRRUS_ENV_SENSITIVE").isSome =
        true := by
      simp only [performStepEpilogue, Environment.merge, Environment.lookup]
      exact lookupVar_foldl_mem hv env.vars
    generalize hE : performStepEpilogue env fileVars = E at hflag ⊢
    simp [performStepEpilogue, Environment.merge, hflag]

/-- Witness for C5: with the flag already defined before the step, the
merged values are registered sensitive. -/
theorem performStepEpilogue_sensitivity_witness :
    (((⟨[("CIRRUS_ENV_SENSITIVE", "1")], []⟩ : Environment).lookup
        "CIRRUS_ENV_SENSITIVE").isSome = true) ∧
    (performStepEpilogue ⟨[("CIRRUS_ENV_SENSITIVE", "1")], []⟩ [("FOO", "bar")]).sensitive =
      ["bar"] := by
  refine ⟨by decide, ?_⟩
  have h := (performStepEpilogue_sensitivity ⟨[("CIRRUS_ENV_SENSITIVE", "1")], []⟩
    [("FOO", "bar")] []).2.1 (by decide)
  simpa using h

/-- The base stage never touches `CIRRUS_WORKING_DIR`. -/
theorem gseBase_working_dir (host : HostState) (renv : List (String × String)) :
    lookupVar (gseBase host renv) "CIRRUS_WORKING_DIR" = lookupVar renv "CIRRUS_WORKING_DIR" := by
  unfold gseBase
  rw [lookupVar_setVar_ne _ _ (by decide), lookupVar_setVar_ne _ _ (by decide)]
  split
  · rw [lookupVar_setVar_ne _ _ (by decide)]
  · rfl

/-- C8: `CIRRUS_WORKING_DIR` is resolved in priority order: the
server-supplied value when present; else the pre-created working dir when
non-empty; else `ToSlash(<tmp>/cirrus-ci-build)` when that directory does
not exist or the run resumes from a named command; else the ToSlash of a
freshly created `cirrus-task-<taskId>` temp directory. -/
theorem getScriptEnvironment_working_dir (cfg : ExecutorConfig) (host : HostState)
    (renv : List (String × String)) :
    (∀ v, lookupVar renv "CIRRUS_WORKING_DIR" = some v →
      lookupVar (getScriptEnvironment cfg host renv) "CIRRUS_WORKING_DIR" = some v) ∧
    (lookupVar renv "CIRRUS_WORKING_DIR" = none → cfg.preCreatedWorkingDir ≠ "" →
      lookupVar (getScriptEnvironment cfg host renv) "CIRRUS_WORKING_DIR" =
        some cfg.preCreatedWorkingDir) ∧
    (lookupVar renv "CIRRUS_WORKING_DIR" = none → cfg.preCreatedWorkingDir = "" →
      (host.defaultTempDirExists = false ∨ cfg.commandFrom ≠ "") →
      lookupVar (getScriptEnvironment cfg host renv) "CIRRUS_WORKING_DIR" =
        some (host.toSlash (joinPath host.tempDir "cirrus-ci-build"))) ∧
    (lookupVar renv "CIRRUS_WORKING_DIR" = none → cfg.preCreatedWorkingDir = "" →
      host.defaultTempDirExists = true → cfg.commandFrom = "" →
      lookupVar (getScriptEnvironment cfg host renv) "CIRRUS_WORKING_DIR" =
        some (host.toSlash (host.mkdirTempResult host.tempDir
          ("cirrus-task-" ++ toString cfg.taskId)))) := by
  refine ⟨?_, ?_, ?_, ?_⟩
  · intro v hv
    simp [getScriptEnvironment, gseBase_working_dir, hv]
  · intro hv hpre
    simp [getScriptEnvironment, gseBase_working_dir, hv, hpre, lookupVar_setVar_self]
  · intro hv hpre hcase
    rcases hcase with hne | hfrom
    · simp [getScriptEnvironment, gseBase_working_dir, hv, hpre, hne, lookupVar_setVar_self]
    · by_cases hne : host.defaultTempDirExists = false
      · simp [getScriptEnvironment, gseBase_working_dir, hv, hpre, hne, lookupVar_setVar_self]
      · rw [Bool.not_eq_false] at hne
        simp [getScriptEnvironment, gseBase_working_dir, hv, hpre, hne, hfrom,
          lookupVar_setVar_self]
  · intro hv hpre hex hfrom
    simp [getScriptEnvironment, gseBase_working_dir, hv, hpre, hex, hfrom,
      lookupVar_setVar_self]

/-- Witness for C8 exercising the pre-created-working-dir branch. -/
theorem getScriptEnvironment_working_dir_witness :
    lookupVar [("CIRRUS_OS", "linux")] "CIRRUS_WORKING_DIR" = none ∧
    lookupVar
      (getScriptEnvironment ⟨7, "/pre/dir", ""⟩
        ⟨false, "linux", "amd64", "/tmp", false, (fun d p => d ++ "/" ++ p ++ "X"), id⟩
        [("CIRRUS_OS", "linux")]) "CIRRUS_WORKING_DIR" = some "/pre/dir" :=
  ⟨by decide,
   (getScriptEnvironment_working_dir ⟨7, "/pre/dir", ""⟩
      ⟨false, "linux", "amd64", "/tmp", false, (fun d p => d ++ "/" ++ p ++ "X"), id⟩
      [("CIRRUS_OS", "linux")]).2.1 (by decide) (by decide)⟩

/-! ### Characterising BoundedCommands (claim C3) -/

/-- Index of the last command with the given name, if any. The Go scan
overwrites its bound on every match, so the last occurrence wins. -/
def lastIdxFrom (name : String) : List Command → Option Nat
  | [] => none
  | c :: rest =>
    match lastIdxFrom name rest with
    | some j => some (j + 1)
    | none => if c.name = name then some 0 else none

/-- One component of the scan step, shared by both bounds. -/
theorem boundsLoopSide (n : String) (c : Command) (rest : List Command) (i d : Nat) :
    (if n = "" then (if n ≠ "" ∧ c.name = n then i else d)
     else ((lastIdxFrom n rest).map (· + (i + 1))).getD (if n ≠ "" ∧ c.name = n then i else d)) =
    (if n = "" then d else ((lastIdxFrom n (c :: rest)).map (· + i)).getD d) := by
  by_cases hn : n = ""
  · simp [hn]
  · cases hrest : lastIdxFrom n rest with
    | some j =>
      have h2 : lastIdxFrom n (c :: rest) = some (j + 1) := by simp [lastIdxFrom, hrest]
      rw [if_neg hn, if_neg hn, h2]
      show j + (i + 1) = j + 1 + i
      omega
    | none =>
      have h2 : lastIdxFrom n (c :: rest) = if c.name = n then some 0 else none := by
        simp [lastIdxFrom, hrest]
      by_cases hc : c.name = n
      · simp [hn, h2, hc]
      · simp [hn, h2, hc]

/-- The scan computes, for each bound, the last matching index shifted by
the base offset, defaulting to the accumulator. -/
theorem boundsLoop_eq (f t : String) : ∀ (cmds : List Command) (i l r : Nat),
    boundsLoop f t cmds i l r =
      ((if f = "" then l else ((lastIdxFrom f cmds).map (· + i)).getD l),
       (if t = "" then r else ((lastIdxFrom t cmds).map (· + i)).getD r))
  | [], i, l, r => by simp [boundsLoop, lastIdxFrom]
  | c :: rest, i, l, r => by
    rw [boundsLoop, boundsLoop_eq f t rest]
    exact congrArg₂ Prod.mk (boundsLoopSide f c rest i l) (boundsLoopSide t c rest i r)

/-- Lower bound actually used by `BoundedCommands`: the index of the last
command named `f`, defaulting to 0 when `f` is empty or absent. -/
def lowerBound (cmds : List Command) (f : String) : Nat :=
  if f = "" then 0 else (lastIdxFrom f cmds).getD 0

/-- Upper bound actually used by `BoundedCommands`: the index of the last
command named `t`, defaulting to the length when `t` is empty or absent. -/
def upperBound (cmds : List Command) (t : String) : Nat :=
  if t = "" then cmds.length else (lastIdxFrom t cmds).getD cmds.length

/-- Closed form of `BoundedCommands` in terms of the two bounds. -/
theorem BoundedCommands_eq (cmds : List Command) (f t : String) :
    BoundedCommands cmds f t =
      if lowerBound cmds f ≤ upperBound cmds t then
        some ((cmds.drop (lowerBound cmds f)).take (upperBound cmds t - lowerBound cmds f))
      else none := by
  unfold BoundedCommands lowerBound upperBound
  rw [boundsLoop_eq]
  simp

/-- A last-occurrence index points at a command with the sought name. -/
theorem lastIdxFrom_get {n : String} : ∀ {cmds : List Command} {j : Nat},
    lastIdxFrom n cmds = some j → ∃ h : j < cmds.length, (cmds.get ⟨j, h⟩).name = n := by
  intro cmds
  induction cmds with
  | nil => intro j h; cases h
  | cons c rest ih =>
    intro j h
    cases hrest : lastIdxFrom n rest with
    | some j' =>
      simp only [lastIdxFrom, hrest] at h
      cases h
      obtain ⟨hlt, hname⟩ := ih hrest
      exact ⟨by simpa using Nat.succ_lt_succ hlt, by simpa using hname⟩
    | none =>
      simp only [lastIdxFrom, hrest] at h
      by_cases hc : c.name = n
      · rw [if_pos hc] at h
        cases h
        exact ⟨Nat.succ_pos _, hc⟩
      · rw [if_neg hc] at h
        cases h

/-- A present name has a last occurrence. -/
theorem lastIdxFrom_mem {n : String} : ∀ {cmds : List Command},
    n ∈ cmds.map (·.name) → (lastIdxFrom n cmds).isSome = true := by
  intro cmds
  induction cmds with
  | nil => intro h; cases h
  | cons c rest ih =>
    intro h
    rw [List.map_cons] at h
    rcases List.mem_cons.mp h with hc | hc
    · subst hc
      cases hrest : lastIdxFrom c.name rest with
      | some j => simp [lastIdxFrom, hrest]
      | none => simp [lastIdxFrom, hrest]
    · have := ih hc
      cases hrest : lastIdxFrom n rest with
      | some j => simp [lastIdxFrom, hrest]
      | none => rw [hrest] at this; exact absurd this (by decide)

/-- Without a last occurrence the name is absent. -/
theorem lastIdxFrom_none {n : String} {cmds : List Command}
    (h : lastIdxFrom n cmds = none) : n ∉ cmds.map (·.name) := by
  intro hm
  have hs := lastIdxFrom_mem hm
  rw [h] at hs
  exact absurd hs (by decide)

/-- An element of a list belongs to the suffix starting at its index. -/
theorem get_mem_drop {α : Type} : ∀ (l : List α) (n : Nat) (h : n < l.length),
    l.get ⟨n, h⟩ ∈ l.drop n := by
  intro l
  induction l with
  | nil => intro n h; simp at h
  | cons a as ih =>
    intro n h
    cases n with
    | zero => simp
    | succ n' => simpa using ih n' (by simpa using h)

/-- Head of a non-trivial take. -/
theorem head?_take {α : Type} (l : List α) (k : Nat) (hk : k ≠ 0) :
    (l.take k).head? = l.head? := by
  cases l <;> cases k <;> simp_all

/-- Head of a drop is the element at the dropped index. -/
theorem head?_drop_get {α : Type} : ∀ (l : List α) (n : Nat) (h : n < l.length),
    (l.drop n).head? = some (l.get ⟨n, h⟩) := by
  intro l
  induction l with
  | nil => intro n h; simp at h
  | cons a as ih =>
    intro n h
    cases n with
    | zero => simp
    | succ n' => exact ih n' (Nat.lt_of_succ_lt_succ h)

/-- Command list with a duplicated name, exercising the duplicate-name
behaviour of `BoundedCommands`. -/
def dupNameCmds : List Command :=
  [⟨"a", .always, .script⟩, ⟨"b", .always, .script⟩, ⟨"a", .always, .script⟩]

/-- C3 counterexample: with a duplicated name, the lower bound is the index
of the LAST command named `from`, not the first — the first occurrence of
`"a"` is at index 0, yet the result is the one-element suffix, not the
sub-slice `[0, len)` the claim predicts. -/
theorem BoundedCommands_first_from_counterexample :
    BoundedCommands dupNameCmds "a" "" = some [⟨"a", .always, .script⟩] ∧
    dupNameCmds.findIdx (fun c => c.name == "a") = 0 ∧
    BoundedCommands dupNameCmds "a" "" ≠
      some ((dupNameCmds.drop 0).take (dupNameCmds.length - 0)) :=
  ⟨by decide, by decide, by decide⟩

/-- C3 amended: `BoundedCommands commands "" ""` is the whole list; in
general the result is the sub-slice `[left, right)` where `left` is the
index of the LAST command named `from` (0 when `from` is empty or absent)
and `right` the index of the LAST command named `to` (the length when `to`
is empty or absent), the Go slice expression panicking when
`left > right`; when `from` is a member, a non-empty result starts with a
command named `from`; and when command names are unique, no element named
`to` is included. -/
theorem BoundedCommands_amended (cmds : List Command) (f t : String) :
    BoundedCommands cmds "" "" = some cmds ∧
    BoundedCommands cmds f t =
      (if lowerBound cmds f ≤ upperBound cmds t then
        some ((cmds.drop (lowerBound cmds f)).take (upperBound cmds t - lowerBound cmds f))
      else none) ∧
    (∀ s, BoundedCommands cmds f t = some s →
      (f ≠ "" → f ∈ cmds.map (·.name) → ∀ c₀, s.head? = some c₀ → c₀.name = f) ∧
      ((cmds.map (·.name)).Nodup → t ≠ "" → ∀ c' ∈ s, c'.name ≠ t)) := by
  refine ⟨?_, BoundedCommands_eq cmds f t, ?_⟩
  · rw [BoundedCommands_eq]
    simp [lowerBound, upperBound]
  · intro s hs
    rw [BoundedCommands_eq] at hs
    by_cases hle : lowerBound cmds f ≤ upperBound cmds t
    case neg =>
      rw [if_neg hle] at hs
      cases hs
    rw [if_pos hle] at hs
    injection hs with hs
    subst hs
    constructor
    · intro hf hmem c₀ hhead
      have hsome := lastIdxFrom_mem hmem
      obtain ⟨j, hj⟩ : ∃ j, lastIdxFrom f cmds = some j := by
        cases hLf : lastIdxFrom f cmds with
        | some j => exact ⟨j, rfl⟩
        | none =>
          rw [hLf] at hsome
          exact absurd hsome (by decide)
      obtain ⟨hjlt, hjname⟩ := lastIdxFrom_get hj
      have hL : lowerBound cmds f = j := by simp [lowerBound, hf, hj]
      rw [hL] at hhead
      by_cases hk : upperBound cmds t - j = 0
      · rw [hk] at hhead
        simp at hhead
      · rw [head?_take _ _ hk, head?_drop_get cmds j hjlt] at hhead
        injection hhead with hhead
        rw [← hhead]
        exact hjname
    · intro hnd ht c' hc' hname
      cases hT : lastIdxFrom t cmds with
      | none =>
        have hnin := lastIdxFrom_none hT
        have hmemc : c' ∈ cmds :=
          ((List.take_sublist _ _).trans (List.drop_sublist _ _)).mem hc'
        have : c'.name ∈ cmds.map (·.name) := List.mem_map_of_mem _ hmemc
        rw [hname] at this
        exact hnin this
      | some R =>
        obtain ⟨hRlt, hRname⟩ := lastIdxFrom_get hT
        have hR : upperBound cmds t = R := by simp [upperBound, ht, hT]
        rw [hR] at hc'
        have hmm : c'.name ∈ ((cmds.map (·.name)).take R).drop (lowerBound cmds f) := by
          have h1 : c'.name ∈
              ((cmds.drop (lowerBound cmds f)).take (R - lowerBound cmds f)).map (·.name) :=
            List.mem_map_of_mem _ hc'
          rw [List.map_take, List.map_drop] at h1
          rw [List.drop_take]
          exact h1
        have hmemtake : c'.name ∈ (cmds.map (·.name)).take R :=
          (List.drop_sublist _ _).mem hmm
        have htdrop : t ∈ (cmds.map (·.name)).drop R := by
          have hg := get_mem_drop cmds R hRlt
          have hgm := List.mem_map_of_mem (·.name) hg
          rw [List.map_drop] at hgm
          rw [← hRname]
          exact hgm
        have hdisj : List.Disjoint ((cmds.map (·.name)).take R)
            ((cmds.map (·.name)).drop R) := by
          apply List.disjoint_of_nodup_append
          rw [List.take_append_drop]
          exact hnd
        rw [hname] at hmemtake
        exact hdisj hmemtake htdrop

/-- Witness for C3 on a resumption range of four uniquely named commands. -/
theorem BoundedCommands_amended_witness :
    BoundedCommands
        [⟨"a", .always, .script⟩, ⟨"b", .always, .script⟩,
         ⟨"c", .always, .script⟩, ⟨"d", .always, .script⟩] "b" "d" =
      some [⟨"b", .always, .script⟩, ⟨"c", .always, .script⟩] ∧
    (⟨"b", .always, .script⟩ : Command).name = "b" := by
  refine ⟨by decide, ?_⟩
  exact ((BoundedCommands_amended
      [⟨"a", .always, .script⟩, ⟨"b", .always, .script⟩,
       ⟨"c", .always, .script⟩, ⟨"d", .always, .script⟩] "b" "d").2.2
      [⟨"b", .always, .script⟩, ⟨"c", .always, .script⟩] (by decide)).1
    (by decide) (by decide) ⟨"b", .always, .script⟩ (by decide)

/-! ### Lemmas about the drain and the loop trace -/

/-- Count of `finalize i` in a drain starting at base `b`. -/
theorem drainEvents_count_finalize : ∀ (reg : List String) (b i : Nat),
    (drainEvents reg b).count (Event.finalize i) =
      if b ≤ i ∧ i < b + reg.length then 1 else 0
  | [], b, i => by
    simp only [drainEvents, List.count_nil, List.length_nil, Nat.add_zero]
    split
    · omega
    · rfl
  | x :: rest, b, i => by
    have ih := drainEvents_count_finalize rest (b + 1) i
    simp only [drainEvents, List.count_cons, ih, List.length_cons]
    by_cases hib : i = b
    · subst hib
      simp only [beq_iff_eq]
      split_ifs <;> simp_all
    · simp only [beq_iff_eq]
      split_ifs <;> simp_all
      all_goals omega

/-- Count of `kill i` in a drain starting at base `b`. -/
theorem drainEvents_count_kill : ∀ (reg : List String) (b i : Nat),
    (drainEvents reg b).count (Event.kill i) =
      if b ≤ i ∧ i < b + reg.length then 1 else 0
  | [], b, i => by
    simp only [drainEvents, List.count_nil, List.length_nil, Nat.add_zero]
    split
    · omega
    · rfl
  | x :: rest, b, i => by
    have ih := drainEvents_count_kill rest (b + 1) i
    simp only [drainEvents, List.count_cons, ih, List.length_cons]
    by_cases hib : i = b
    · subst hib
      simp only [beq_iff_eq]
      split_ifs <;> simp_all
    · simp only [beq_iff_eq]
      split_ifs <;> simp_all
      all_goals omega

/-- Every event produced by the command loop is a queued result, a flush
or a step start: the loop itself kills and finalises nothing. -/
theorem runLoop_events_shape (oracle : Nat → Bool) : ∀ (cmds : List Command) (failed : Bool)
    (idx : Nat) (reg : List String) (e : Event),
    e ∈ (runLoop oracle cmds failed idx reg).events →
    (∃ n s, e = Event.queue n s) ∨ e = Event.flush ∨ ∃ n, e = Event.stepStart n
  | [], failed, idx, reg => by
    intro e he
    simp [runLoop] at he
  | c :: rest, failed, idx, reg => by
    intro e he
    rw [runLoop] at he
    by_cases hsr : shouldRunB c.executionBehaviour failed
    · rw [if_pos hsr] at he
      cases hc : c.instr with
      | exitInstruction =>
        rw [hc] at he
        simp at he
        rcases he with h | h | h
        · exact Or.inl ⟨_, _, h⟩
        · exact Or.inr (Or.inl h)
        · exact Or.inr (Or.inr ⟨_, h⟩)
      | backgroundScript =>
        rw [hc] at he
        simp at he
        rcases he with h | h | h | h | h
        · exact Or.inl ⟨_, _, h⟩
        · exact Or.inr (Or.inl h)
        · exact Or.inr (Or.inr ⟨_, h⟩)
        · exact Or.inl ⟨_, _, h⟩
        · exact runLoop_events_shape oracle rest _ _ _ e h
      | script =>
        rw [hc] at he
        simp at he
        rcases he with h | h | h | h | h
        · exact Or.inl ⟨_, _, h⟩
        · exact Or.inr (Or.inl h)
        · exact Or.inr (Or.inr ⟨_, h⟩)
        · exact Or.inl ⟨_, _, h⟩
        · exact runLoop_events_shape oracle rest _ _ _ e h
      | waitForTerminal =>
        rw [hc] at he
        simp at he
        rcases he with h | h | h | h | h
        · exact Or.inl ⟨_, _, h⟩
        · exact Or.inr (Or.inl h)
        · exact Or.inr (Or.inr ⟨_, h⟩)
        · exact Or.inl ⟨_, _, h⟩
        · exact runLoop_events_shape oracle rest _ _ _ e h
    · rw [if_neg hsr] at he
      simp at he
      rcases he with h | h
      · exact Or.inl ⟨_, _, h⟩
      · exact runLoop_events_shape oracle rest _ _ _ e h

/-- Without an Exit instruction in range the loop is never left early. -/
theorem runLoop_no_exit (oracle : Nat → Bool) : ∀ (cmds : List Command) (failed : Bool)
    (idx : Nat) (reg : List String),
    (∀ c ∈ cmds, c.instr ≠ Instr.exitInstruction) →
    (runLoop oracle cmds failed idx reg).exited = false
  | [], failed, idx, reg => by
    intro _
    simp [runLoop]
  | c :: rest, failed, idx, reg => by
    intro h
    have hc := h c (List.mem_cons_self c rest)
    have hrest : ∀ c' ∈ rest, c'.instr ≠ Instr.exitInstruction :=
      fun c' hc' => h c' (List.mem_cons_of_mem c hc')
    rw [runLoop]
    by_cases hsr : shouldRunB c.executionBehaviour failed
    · rw [if_pos hsr]
      cases hic : c.instr with
      | exitInstruction => exact absurd hic hc
      | backgroundScript => exact runLoop_no_exit oracle rest _ _ _ hrest
      | script => exact runLoop_no_exit oracle rest _ _ _ hrest
      | waitForTerminal => exact runLoop_no_exit oracle rest _ _ _ hrest
    · rw [if_neg hsr]
      exact runLoop_no_exit oracle rest _ _ _ hrest

/-- Count of kill/finalize anywhere in a loop trace is zero. -/
theorem runLoop_count_kf (oracle : Nat → Bool) (cmds : List Command) (failed : Bool)
    (idx : Nat) (reg : List String) (i : Nat) :
    (runLoop oracle cmds failed idx reg).events.count (Event.kill i) = 0 ∧
    (runLoop oracle cmds failed idx reg).events.count (Event.finalize i) = 0 := by
  constructor
  · rw [List.count_eq_zero]
    intro hmem
    rcases runLoop_events_shape oracle cmds failed idx reg _ hmem with ⟨n, s, h⟩ | h | ⟨n, h⟩
    · cases h
    · cases h
    · cases h
  · rw [List.count_eq_zero]
    intro hmem
    rcases runLoop_events_shape oracle cmds failed idx reg _ hmem with ⟨n, s, h⟩ | h | ⟨n, h⟩
    · cases h
    · cases h
    · cases h

/-- Count of kill/finalize in the prelude is zero. -/
theorem preludeEvents_count_kf (cmds : List Command) (i : Nat) :
    (preludeEvents cmds).count (Event.kill i) = 0 ∧
    (preludeEvents cmds).count (Event.finalize i) = 0 := by
  unfold preludeEvents
  by_cases h : cmds.any (fun c => c.instr == Instr.waitForTerminal) <;>
    simp [h, List.count_cons, List.count_nil]

/-- C6 counterexample: running the drain loop twice over the same
(uncleared) registry finalises the same log sink twice, so the second
drain is not a no-op. -/
theorem drain_twice_counterexample :
    (drainEvents ["bg"] 0).count (Event.finalize 0) = 1 ∧
    (drainEvents ["bg"] 0 ++ drainEvents ["bg"] 0).count (Event.finalize 0) = 2 :=
  ⟨by decide, by decide⟩

/-- C6 amended: within a single run of the drain loop every registry entry
is killed once and its log sink finalised exactly once; the loop does not
clear the registry, so running it twice in sequence finalises every sink
twice (RunBuild reaches the drain at most once, so this never happens in a
single build). -/
theorem drainEvents_once (reg : List String) (i : Nat) (h : i < reg.length) :
    (drainEvents reg 0).count (Event.kill i) = 1 ∧
    (drainEvents reg 0).count (Event.finalize i) = 1 ∧
    (drainEvents reg 0 ++ drainEvents reg 0).count (Event.finalize i) = 2 := by
  have hk := drainEvents_count_kill reg 0 i
  have hf := drainEvents_count_finalize reg 0 i
  have hcond : 0 ≤ i ∧ i < 0 + reg.length := ⟨Nat.zero_le i, by omega⟩
  rw [if_pos hcond] at hk hf
  refine ⟨hk, hf, ?_⟩
  rw [List.count_append, hf]

/-- Witness for C6 (amended) at a one-entry registry. -/
theorem drainEvents_once_witness :
    0 < (["bg"] : List String).length ∧
    (drainEvents ["bg"] 0).count (Event.finalize 0) = 1 :=
  ⟨by decide, (drainEvents_once ["bg"] 0 (by decide)).2.1⟩

/-- C1 counterexample: a background script followed by an Exit step leaves
`RunBuild` through `ErrStepExit`; the function returns without draining,
so the appended registry entry receives neither a kill nor a log-sink
finalisation. -/
theorem runBuild_exit_skips_drain_counterexample :
    (runBuild "t" "t" true
        [⟨"bg", .always, .backgroundScript⟩, ⟨"stop", .always, .exitInstruction⟩]
        false "" "" fun _ => true).registry = ["bg"] ∧
    (runBuild "t" "t" true
        [⟨"bg", .always, .backgroundScript⟩, ⟨"stop", .always, .exitInstruction⟩]
        false "" "" fun _ => true).events.count (Event.kill 0) = 0 ∧
    (runBuild "t" "t" true
        [⟨"bg", .always, .backgroundScript⟩, ⟨"stop", .always, .exitInstruction⟩]
        false "" "" fun _ => true).events.count (Event.finalize 0) = 0 :=
  ⟨by decide, by decide, by decide⟩

/-- C1 amended: when the loop completes without `ErrStepExit`, every entry
appended to the background registry receives exactly one kill and exactly
one log-sink finalisation before `RunBuild` returns; when a step returns
`ErrStepExit`, `RunBuild` returns immediately and the drain does not run
at all (no kill, no finalisation). -/
theorem runBuild_background_teardown (tok : String) (u : Bool) (cmds : List Command)
    (f0 : Bool) (cf ct : String) (oracle : Nat → Bool) :
    ((runBuild tok tok u cmds f0 cf ct oracle).exitedEarly = false →
      ∀ i, i < (runBuild tok tok u cmds f0 cf ct oracle).registry.length →
        (runBuild tok tok u cmds f0 cf ct oracle).events.count (Event.kill i) = 1 ∧
        (runBuild tok tok u cmds f0 cf ct oracle).events.count (Event.finalize i) = 1) ∧
    ((runBuild tok tok u cmds f0 cf ct oracle).exitedEarly = true →
      ∀ i, (runBuild tok tok u cmds f0 cf ct oracle).events.count (Event.kill i) = 0 ∧
        (runBuild tok tok u cmds f0 cf ct oracle).events.count (Event.finalize i) = 0) := by
  cases u with
  | false =>
    have hrb : runBuild tok tok false cmds f0 cf ct oracle = ⟨[.unboxFailure], [], false⟩ := by
      simp [runBuild]
    constructor
    · intro _ i hi
      rw [hrb] at hi
      simp at hi
    · intro hexit
      rw [hrb] at hexit
      cases hexit
  | true =>
    by_cases hemp : cmds.isEmpty
    · have hrb : runBuild tok tok true cmds f0 cf ct oracle =
          ⟨[.registerSecrets], [], false⟩ := by
        simp [runBuild, hemp]
      constructor
      · intro _ i hi
        rw [hrb] at hi
        simp at hi
      · intro hexit
        rw [hrb] at hexit
        cases hexit
    · cases hbc : BoundedCommands cmds cf ct with
      | none =>
        have hrb : runBuild tok tok true cmds f0 cf ct oracle =
            ⟨preludeEvents cmds ++ [.slicePanic], [], false⟩ := by
          simp [runBuild, hemp, hbc]
        constructor
        · intro _ i hi
          rw [hrb] at hi
          simp at hi
        · intro hexit
          rw [hrb] at hexit
          cases hexit
      | some bc =>
        cases hex : (runLoop oracle bc f0 0 []).exited with
        | true =>
          have hrb : runBuild tok tok true cmds f0 cf ct oracle =
              ⟨preludeEvents cmds ++ (runLoop oracle bc f0 0 []).events,
               (runLoop oracle bc f0 0 []).registry, true⟩ := by
            simp [runBuild, hemp, hbc, hex]
          constructor
          · intro hexit
            rw [hrb] at hexit
            cases hexit
          · intro _ i
            rw [hrb]
            constructor
            · show ((preludeEvents cmds ++ (runLoop oracle bc f0 0 []).events).count
                (Event.kill i)) = 0
              rw [List.count_append, (preludeEvents_count_kf cmds i).1,
                (runLoop_count_kf oracle bc f0 0 [] i).1]
            · show ((preludeEvents cmds ++ (runLoop oracle bc f0 0 []).events).count
                (Event.finalize i)) = 0
              rw [List.count_append, (preludeEvents_count_kf cmds i).2,
                (runLoop_count_kf oracle bc f0 0 [] i).2]
        | false =>
          have hrb : runBuild tok tok true cmds f0 cf ct oracle =
              ⟨preludeEvents cmds ++ (runLoop oracle bc f0 0 []).events ++
                 .flush :: drainEvents (runLoop oracle bc f0 0 []).registry 0 ++
                 [.reportFinished],
               (runLoop oracle bc f0 0 []).registry, false⟩ := by
            simp [runBuild, hemp, hbc, hex]
          constructor
          · intro _ i hi
            rw [hrb] at hi
            have hi2 : i < (runLoop oracle bc f0 0 []).registry.length := hi
            have hdk := drainEvents_count_kill (runLoop oracle bc f0 0 []).registry 0 i
            have hdf := drainEvents_count_finalize (runLoop oracle bc f0 0 []).registry 0 i
            have hcond : 0 ≤ i ∧ i < 0 + (runLoop oracle bc f0 0 []).registry.length :=
              ⟨Nat.zero_le i, by omega⟩
            rw [if_pos hcond] at hdk hdf
            rw [hrb]
            constructor
            · show ((preludeEvents cmds ++ (runLoop oracle bc f0 0 []).events ++
                  Event.flush :: drainEvents (runLoop oracle bc f0 0 []).registry 0 ++
                  [Event.reportFinished]).count (Event.kill i)) = 1
              simp [List.count_append, List.count_cons,
                (preludeEvents_count_kf cmds i).1, (runLoop_count_kf oracle bc f0 0 [] i).1,
                hdk]
            · show ((preludeEvents cmds ++ (runLoop oracle bc f0 0 []).events ++
                  Event.flush :: drainEvents (runLoop oracle bc f0 0 []).registry 0 ++
                  [Event.reportFinished]).count (Event.finalize i)) = 1
              simp [List.count_append, List.count_cons,
                (preludeEvents_count_kf cmds i).2, (runLoop_count_kf oracle bc f0 0 [] i).2,
                hdf]
          · intro hexit
            rw [hrb] at hexit
            cases hexit

/-- Witness for C1 (amended): one background command and no Exit step. -/
theorem runBuild_background_teardown_witness :
    (runBuild "t" "t" true [⟨"bg", .always, .backgroundScript⟩] false "" ""
        fun _ => true).exitedEarly = false ∧
    (runBuild "t" "t" true [⟨"bg", .always, .backgroundScript⟩] false "" ""
        fun _ => true).events.count (Event.kill 0) = 1 ∧
    (runBuild "t" "t" true [⟨"bg", .always, .backgroundScript⟩] false "" ""
        fun _ => true).events.count (Event.finalize 0) = 1 := by
  refine ⟨by decide, ?_, ?_⟩
  · exact ((runBuild_background_teardown "t" true [⟨"bg", .always, .backgroundScript⟩]
      false "" "" fun _ => true).1 (by decide) 0 (by decide)).1
  · exact ((runBuild_background_teardown "t" true [⟨"bg", .always, .backgroundScript⟩]
      false "" "" fun _ => true).1 (by decide) 0 (by decide)).2

/-- C4: when the response token differs from the launch token, `RunBuild`
panics at the token check — no step is performed, no `CommandResult` is
queued, no batch flush (`ReportCommandUpdates`) and no
`ReportAgentFinished` is issued. -/
theorem runBuild_token_mismatch (launch resp : String) (u : Bool) (cmds : List Command)
    (f0 : Bool) (cf ct : String) (oracle : Nat → Bool) (h : resp ≠ launch) :
    (runBuild launch resp u cmds f0 cf ct oracle).events = [Event.tokenMismatchPanic] ∧
    (∀ n, Event.stepStart n ∉ (runBuild launch resp u cmds f0 cf ct oracle).events) ∧
    (∀ n s, Event.queue n s ∉ (runBuild launch resp u cmds f0 cf ct oracle).events) ∧
    Event.flush ∉ (runBuild launch resp u cmds f0 cf ct oracle).events ∧
    Event.reportFinished ∉ (runBuild launch resp u cmds f0 cf ct oracle).events := by
  have he : (runBuild launch resp u cmds f0 cf ct oracle).events =
      [Event.tokenMismatchPanic] := by
    simp [runBuild, h]
  refine ⟨he, ?_, ?_, ?_, ?_⟩ <;> simp [he]

/-- Witness for C4 at concrete distinct tokens. -/
theorem runBuild_token_mismatch_witness :
    ("X" : String) ≠ "Y" ∧
    (runBuild "Y" "X" true [⟨"a", .always, .script⟩] false "" "" fun _ => true).events =
      [Event.tokenMismatchPanic] :=
  ⟨by decide,
   (runBuild_token_mismatch "Y" "X" true [⟨"a", .always, .script⟩] false "" ""
      (fun _ => true) (by decide)).1⟩

/-- C10: with matching tokens, a successful prelude and an empty command
list, `RunBuild` returns right after registering the secrets to mask: the
trace is exactly the secret registration — no `ReportAgentFinished`, no
batcher flush, no terminal wrapper start. -/
theorem runBuild_empty_commands (tok : String) (f0 : Bool) (cf ct : String)
    (oracle : Nat → Bool) :
    (runBuild tok tok true [] f0 cf ct oracle).events = [Event.registerSecrets] ∧
    Event.reportFinished ∉ (runBuild tok tok true [] f0 cf ct oracle).events ∧
    Event.flush ∉ (runBuild tok tok true [] f0 cf ct oracle).events ∧
    Event.startTerminal ∉ (runBuild tok tok true [] f0 cf ct oracle).events := by
  have he : (runBuild tok tok true [] f0 cf ct oracle).events = [Event.registerSecrets] := by
    simp [runBuild]
  refine ⟨he, ?_, ?_, ?_⟩ <;> simp [he]

/-! ### The skip/run policy refines the specification table (claim C2) -/

/-- The loop predicate agrees with the spec-side table. -/
theorem shouldRunB_eq_specShouldRun (b : Behaviour) (f : Bool) :
    shouldRunB b f = specShouldRun b f := by
  cases b <;> cases f <;> rfl

/-- Queued results distribute over append. -/
theorem queuedResults_append (l1 l2 : List Event) :
    queuedResults (l1 ++ l2) = queuedResults l1 ++ queuedResults l2 := by
  simp [queuedResults, List.filterMap_append]

/-- Step starts distribute over append. -/
theorem stepStarts_append (l1 l2 : List Event) :
    stepStarts (l1 ++ l2) = stepStarts l1 ++ stepStarts l2 := by
  simp [stepStarts, List.filterMap_append]

/-- A flush queues nothing. -/
theorem queuedResults_flush_cons (l : List Event) :
    queuedResults (Event.flush :: l) = queuedResults l := by
  simp [queuedResults]

/-- A flush starts no step. -/
theorem stepStarts_flush_cons (l : List Event) :
    stepStarts (Event.flush :: l) = stepStarts l := by
  simp [stepStarts]

/-- The drain queues no results. -/
theorem queuedResults_drain : ∀ (reg : List String) (b : Nat),
    queuedResults (drainEvents reg b) = []
  | [], _ => rfl
  | x :: rest, b => by
    have ih := queuedResults_drain rest (b + 1)
    simp only [drainEvents, queuedResults, List.filterMap_cons] at ih ⊢
    simpa using ih

/-- The drain starts no steps. -/
theorem stepStarts_drain : ∀ (reg : List String) (b : Nat),
    stepStarts (drainEvents reg b) = []
  | [], _ => rfl
  | x :: rest, b => by
    have ih := stepStarts_drain rest (b + 1)
    simp only [drainEvents, stepStarts, List.filterMap_cons] at ih ⊢
    simpa using ih

/-- The prelude queues no results. -/
theorem queuedResults_pre (cmds : List Command) : queuedResults (preludeEvents cmds) = [] := by
  unfold preludeEvents
  by_cases h : cmds.any (fun c => c.instr == Instr.waitForTerminal) <;> simp [h, queuedResults]

/-- The prelude starts no steps. -/
theorem stepStarts_pre (cmds : List Command) : stepStarts (preludeEvents cmds) = [] := by
  unfold preludeEvents
  by_cases h : cmds.any (fun c => c.instr == Instr.waitForTerminal) <;> simp [h, stepStarts]

/-- The loop's queued results and executed steps refine the spec-side
recursion, provided no Exit instruction is in range. -/
theorem runLoop_results_spec (oracle : Nat → Bool) : ∀ (cmds : List Command) (failed : Bool)
    (idx : Nat) (reg : List String),
    (∀ c ∈ cmds, c.instr ≠ Instr.exitInstruction) →
    queuedResults (runLoop oracle cmds failed idx reg).events =
      specResults oracle cmds failed idx ∧
    stepStarts (runLoop oracle cmds failed idx reg).events =
      specExecuted oracle cmds failed idx
  | [], failed, idx, reg => by
    intro _
    simp [runLoop, specResults, specExecuted, queuedResults, stepStarts]
  | c :: rest, failed, idx, reg => by
    intro h
    have hc := h c (List.mem_cons_self c rest)
    have hrest : ∀ c' ∈ rest, c'.instr ≠ Instr.exitInstruction :=
      fun c' hc' => h c' (List.mem_cons_of_mem c hc')
    rw [runLoop]
    by_cases hsr : shouldRunB c.executionBehaviour failed
    · have hspec : specShouldRun c.executionBehaviour failed = true := by
        rw [← shouldRunB_eq_specShouldRun]
        exact hsr
      rw [if_pos hsr]
      cases hic : c.instr with
      | exitInstruction => exact absurd hic hc
      | backgroundScript =>
        have ih := runLoop_results_spec oracle rest (failed || !(oracle idx)) (idx + 1)
          (if oracle idx then reg ++ [c.name] else reg) hrest
        constructor
        · have ih1 := ih.1
          simp only [queuedResults, List.filterMap_cons, List.filterMap_append] at ih1 ⊢
          simp [ih1, specResults, hspec]
        · have ih2 := ih.2
          simp only [stepStarts, List.filterMap_cons, List.filterMap_append] at ih2 ⊢
          simp [ih2, specExecuted, hspec]
      | script =>
        have ih := runLoop_results_spec oracle rest (failed || !(oracle idx)) (idx + 1)
          reg hrest
        constructor
        · have ih1 := ih.1
          simp only [queuedResults, List.filterMap_cons, List.filterMap_append] at ih1 ⊢
          simp [ih1, specResults, hspec]
        · have ih2 := ih.2
          simp only [stepStarts, List.filterMap_cons, List.filterMap_append] at ih2 ⊢
          simp [ih2, specExecuted, hspec]
      | waitForTerminal =>
        have ih := runLoop_results_spec oracle rest (failed || !(oracle idx)) (idx + 1)
          reg hrest
        constructor
        · have ih1 := ih.1
          simp only [queuedResults, List.filterMap_cons, List.filterMap_append] at ih1 ⊢
          simp [ih1, specResults, hspec]
        · have ih2 := ih.2
          simp only [stepStarts, List.filterMap_cons, List.filterMap_append] at ih2 ⊢
          simp [ih2, specExecuted, hspec]
    · have hspec : specShouldRun c.executionBehaviour failed = false := by
        rw [← shouldRunB_eq_specShouldRun]
        exact Bool.not_eq_true _ ▸ (by simpa using hsr)
      rw [if_neg hsr]
      have ih := runLoop_results_spec oracle rest failed idx reg hrest
      constructor
      · have ih1 := ih.1
        simp only [queuedResults, List.filterMap_cons] at ih1 ⊢
        simp [ih1, specResults, hspec]
      · have ih2 := ih.2
        simp only [stepStarts, List.filterMap_cons] at ih2 ⊢
        simp [ih2, specExecuted, hspec]

/-- C2: for every command list, bounded range and initial failure flag, the
control loop queues, in command-list order, a `SKIPPED` result for every
in-range command whose `shouldRun` is false and `EXECUTING` followed by
`COMPLETED`/`FAILED` for every command whose `shouldRun` is true, with
`failedAtLeastOnce` set permanently after any unsuccessful step; the
executed commands are exactly those with `shouldRun` true (under the
claim's trace model, in which every step yields a StepResult, i.e. no Exit
instruction is in range). -/
theorem runBuild_skip_run_policy (tok : String) (cmds : List Command) (f0 : Bool)
    (cf ct : String) (oracle : Nat → Bool) (bc : List Command)
    (hemp : cmds.isEmpty = false)
    (hbc : BoundedCommands cmds cf ct = some bc)
    (hne : ∀ c ∈ bc, c.instr ≠ Instr.exitInstruction) :
    queuedResults (runBuild tok tok true cmds f0 cf ct oracle).events =
      specResults oracle bc f0 0 ∧
    stepStarts (runBuild tok tok true cmds f0 cf ct oracle).events =
      specExecuted oracle bc f0 0 := by
  have hex := runLoop_no_exit oracle bc f0 0 [] hne
  have hrb : runBuild tok tok true cmds f0 cf ct oracle =
      ⟨preludeEvents cmds ++ (runLoop oracle bc f0 0 []).events ++
         Event.flush :: drainEvents (runLoop oracle bc f0 0 []).registry 0 ++
         [Event.reportFinished],
       (runLoop oracle bc f0 0 []).registry, false⟩ := by
    simp [runBuild, hemp, hbc, hex]
  have hl := runLoop_results_spec oracle bc f0 0 [] hne
  rw [hrb]
  constructor
  · show queuedResults (preludeEvents cmds ++ (runLoop oracle bc f0 0 []).events ++
        Event.flush :: drainEvents (runLoop oracle bc f0 0 []).registry 0 ++
        [Event.reportFinished]) = _
    rw [queuedResults_append, queuedResults_append, queuedResults_append,
      queuedResults_pre, queuedResults_flush_cons, queuedResults_drain, hl.1]
    simp [queuedResults]
  · show stepStarts (preludeEvents cmds ++ (runLoop oracle bc f0 0 []).events ++
        Event.flush :: drainEvents (runLoop oracle bc f0 0 []).registry 0 ++
        [Event.reportFinished]) = _
    rw [stepStarts_append, stepStarts_append, stepStarts_append,
      stepStarts_pre, stepStarts_flush_cons, stepStarts_drain, hl.2]
    simp [stepStarts]

/-- Witness for C2: a failing ALWAYS step activates the ON_FAILURE step and
skips the ON_SUCCESS one, results in command-list order. -/
theorem runBuild_skip_run_policy_witness :
    (∀ c ∈ ([⟨"a", .always, .script⟩, ⟨"b", .onSuccess, .script⟩,
        ⟨"c", .onFailure, .script⟩] : List Command),
      c.instr ≠ Instr.exitInstruction) ∧
    queuedResults (runBuild "t" "t" true
        [⟨"a", .always, .script⟩, ⟨"b", .onSuccess, .script⟩, ⟨"c", .onFailure, .script⟩]
        false "" "" fun i => i != 0).events =
      [("a", .executing), ("a", .failed), ("b", .skipped), ("c", .executing),
       ("c", .completed)] := by
  refine ⟨by decide, ?_⟩
  have h := (runBuild_skip_run_policy "t"
    [⟨"a", .always, .script⟩, ⟨"b", .onSuccess, .script⟩, ⟨"c", .onFailure, .script⟩]
    false "" "" (fun i => i != 0)
    [⟨"a", .always, .script⟩, ⟨"b", .onSuccess, .script⟩, ⟨"c", .onFailure, .script⟩]
    (by decide) (by decide) (by decide)).1
  rw [h]
  decide
